import Mathlib

/-!
Verification of the reddit-crawler repository's incremental collection
pipeline, as a shallow embedding in Lean 4.

The embedding mirrors the Python source:
* `crawler.py` — multi-source frontier collection with sampling ratios
  (`collect_post_urls`, `_collect_from_single_source`);
* `stage1_collect_urls.py` — PullPush-API frontier collection
  (`_process_api_response`, `collect_post_urls`);
* `stage2_crawl_posts.py` / `stage2_crawl_posts_pullpush.py` — comment
  parsing, comment-tree building, comment counting, the resumable fetch
  loop with its consecutive-failure circuit breaker, and progress
  recomputation from the persistence sink.

Machine-level details are modelled explicitly where they matter: Python
`int()` truncation is `pythonInt` on `ℚ`, Python truthiness of
strings/numbers is modelled by comparison with `""`/`0`/`none`, Python
sets are lists with membership, and Python dicts are association lists
whose insertion keeps the first position of a key and replaces its value.
String primitives (`lower`, `in`, `<`, `startswith`, slicing) are given
list-of-characters implementations so that concrete instances evaluate
inside the kernel.
-/

namespace RedditCrawler

/-! ## Small string and numeric helpers -/

/-- Python `int()` on a rational: truncation toward zero. -/
def pythonInt (q : ℚ) : ℤ :=
  if 0 ≤ q then ⌊q⌋ else ⌈q⌉

/-- Lowercasing, modelling Python `str.lower()` on the ASCII phrases the
crawler compares against. -/
def toLowerStr (s : String) : String :=
  String.mk (s.data.map Char.toLower)

/-- Lexicographic comparison of character lists by code point. -/
def charListLt : List Char → List Char → Bool
  | _, [] => false
  | [], _ :: _ => true
  | a :: as, b :: bs =>
      if a.toNat < b.toNat then true
      else if b.toNat < a.toNat then false
      else charListLt as bs

/-- Python's `<` on strings: lexicographic comparison by code point. -/
def strLt (a b : String) : Bool :=
  charListLt a.toList b.toList

/-- Substring test on character lists: `needle` occurs contiguously in the
list. -/
def containsSub (needle : List Char) : List Char → Bool
  | [] => needle.isEmpty
  | c :: rest => needle.isPrefixOf (c :: rest) || containsSub needle rest

/-- Python's `needle in hay` on strings. -/
def strContains (hay needle : String) : Bool :=
  containsSub needle.toList hay.toList

/-- Python's `s.startswith(p)`. -/
def strStartsWith (s p : String) : Bool :=
  p.toList.isPrefixOf s.toList

/-- Python's `s[n:]`. -/
def strDrop (s : String) (n : Nat) : String :=
  String.mk (s.toList.drop n)

/-! ## crawler.py: sampling-ratio validation and quota partition

`RedditCrawler.__init__` validates `sampling_ratios` (renormalizing when
the weights are off by more than 0.01), and `collect_post_urls`
(crawler.py lines 386-398) partitions `max_posts` across the sources in
sorted key order, the last source taking the remaining count.  A ratio
mapping is modelled as an association list with distinct keys (a Python
dict). -/

/-- Insertion of a key into a sorted list of keys. -/
def insertSorted (x : String) : List String → List String
  | [] => [x]
  | y :: ys => if strLt y x then y :: insertSorted x ys else x :: y :: ys

/-- `sorted(...)` over the keys of the ratio mapping
(crawler.py line 391: `sorted_types = sorted(self.sampling_ratios.keys())`). -/
def sortKeys (l : List String) : List String :=
  l.foldr insertSorted []

/-- Ratio lookup in the mapping (Python `self.sampling_ratios[source_type]`;
the key always comes from the mapping itself). -/
def ratioFor : List (String × ℚ) → String → ℚ
  | [], _ => 0
  | p :: rest, t => if p.1 = t then p.2 else ratioFor rest t

/-- The ratio-validation step of `RedditCrawler.__init__`
(crawler.py lines 70-75): if the weights sum to more than 0.01 away from
1.0, divide every weight by the total. -/
def validate_ratios (ratios : List (String × ℚ)) : List (String × ℚ) :=
  let total := (ratios.map Prod.snd).sum
  if 1 / 100 < |total - 1| then ratios.map (fun p => (p.1, p.2 / total))
  else ratios

/-- The quota loop of `collect_post_urls` (crawler.py lines 388-398): each
non-last source type receives `int(max_posts * ratio)` and the last
receives the remaining count. -/
def quotaGo (max_posts : Nat) (ratios : List (String × ℚ)) :
    ℤ → List String → List (String × ℤ)
  | _, [] => []
  | remaining, [t] => [(t, remaining)]
  | remaining, t :: t2 :: rest =>
      let c := pythonInt ((max_posts : ℚ) * ratioFor ratios t)
      (t, c) :: quotaGo max_posts ratios (remaining - c) (t2 :: rest)

/-- `sampling_counts` as computed by `collect_post_urls`
(crawler.py lines 386-398). -/
def sampling_counts (max_posts : Nat) (ratios : List (String × ℚ)) :
    List (String × ℤ) :=
  quotaGo max_posts ratios (max_posts : ℤ) (sortKeys (ratios.map Prod.fst))

/-! ## Comment filtering

`_is_bot_or_mod_comment_or_deleted` (stage2_crawl_posts_pullpush.py lines
574-585) and `_is_bot_or_mod_comment` (stage2_crawl_posts.py lines
599-610).  Python's `body.lower() if body else ""` is modelled by the
explicit empty-string test. -/

/-- `_is_bot_or_mod_comment_or_deleted(author, body)`
(stage2_crawl_posts_pullpush.py lines 574-585). -/
def is_bot_or_mod_comment_or_deleted (author body : String) : Bool :=
  if author = "AutoModerator" ∨ author = "[deleted]" then true
  else
    let body_lower := if body = "" then "" else toLowerStr body
    strContains body_lower "i am a bot" || strContains body_lower "moderator" ||
      strContains body_lower "[deleted]"

/-- `_is_bot_or_mod_comment(author, body)` (stage2_crawl_posts.py lines
599-610): same test without the deleted-sentinel checks. -/
def is_bot_or_mod_comment (author body : String) : Bool :=
  if author = "AutoModerator" then true
  else
    let body_lower := if body = "" then "" else toLowerStr body
    strContains body_lower "i am a bot" || strContains body_lower "moderator"

/-- The claim's description of `should_filter`: the author is the
automated-moderation identity, or the deleted sentinel, or the lowercased
body contains a bot self-disclosure phrase, a moderator phrase, or the
deletion sentinel. -/
def should_filter_spec (author body : String) : Prop :=
  author = "AutoModerator" ∨ author = "[deleted]" ∨
    strContains (toLowerStr body) "i am a bot" = true ∨
    strContains (toLowerStr body) "moderator" = true ∨
    strContains (toLowerStr body) "[deleted]" = true

/-! ## Comment trees

`CommentNode` is the node dictionary built by both stage-2 parsers:
`{author, text, score, created_time, replies, reply_count}`.  Timestamp
formatting (`_convert_time`, which calls into the datetime library) is
kept abstract as a `conv : Int → String` parameter. -/

inductive CommentNode : Type where
  | mk : (author text : String) → (score : ℤ) → (created_time : String) →
      (replies : List CommentNode) → (reply_count : Nat) → CommentNode

def CommentNode.author : CommentNode → String
  | .mk a _ _ _ _ _ => a

def CommentNode.text : CommentNode → String
  | .mk _ t _ _ _ _ => t

def CommentNode.score : CommentNode → ℤ
  | .mk _ _ s _ _ _ => s

def CommentNode.created_time : CommentNode → String
  | .mk _ _ _ c _ _ => c

def CommentNode.replies : CommentNode → List CommentNode
  | .mk _ _ _ _ rs _ => rs

def CommentNode.reply_count : CommentNode → Nat
  | .mk _ _ _ _ _ rc => rc

/-- `_count_comments(comments)` (stage2_crawl_posts.py lines 590-597, the
same loop as `_count_comments_recursively` in
stage2_crawl_posts_pullpush.py lines 500-507): one per comment, plus the
recursive count of its replies when the reply list is non-empty. -/
def count_comments : List CommentNode → Nat
  | [] => 0
  | .mk _ _ _ _ rs _ :: rest =>
      1 + (if rs.isEmpty then 0 else count_comments rs) + count_comments rest

/-- The list of every node of a forest, at every depth.  Specification
device: `count_comments` is compared against the length of this list. -/
def flattenForest : List CommentNode → List CommentNode
  | [] => []
  | .mk a t s c rs rc :: rest =>
      CommentNode.mk a t s c rs rc :: (flattenForest rs ++ flattenForest rest)

/-- A raw nested comment payload as consumed by `_parse_comment`
(stage2_crawl_posts.py lines 612-646): the `kind` discriminator and the
`data` fields the parser reads.  A missing `author`/`body` key is `none`
(the parser's `.get` defaults apply); `replies` is the list of children
when the raw `replies` field is a dict, and `[]` when it is the empty
string the API uses for leaves. -/
inductive RawComment : Type where
  | mk : (kind : String) → (author : Option String) → (body : Option String) →
      (score : ℤ) → (created_utc : ℤ) → (replies : List RawComment) → RawComment

mutual

/-- `_parse_comment(comment_data)` (stage2_crawl_posts.py lines 612-646):
drop "load more" placeholders and filtered authors, recursively parse the
children, and set `reply_count = len(replies)`. -/
def parse_comment (conv : ℤ → String) : RawComment → Option CommentNode
  | .mk kind author body score cutc rawReplies =>
      if kind = "more" then none
      else
        let a := author.getD "[Deleted]"
        let b := body.getD ""
        if is_bot_or_mod_comment a b then none
        else
          let children := parse_comment_list conv rawReplies
          some (.mk a (if b = "" then "[无文本]" else b) score (conv cutc)
            children children.length)

/-- The loop of `_parse_comment` over a list of children: keep the
successfully parsed ones in order. -/
def parse_comment_list (conv : ℤ → String) : List RawComment → List CommentNode
  | [] => []
  | r :: rest =>
      match parse_comment conv r with
      | some n => n :: parse_comment_list conv rest
      | none => parse_comment_list conv rest

end

/-! ## Flat-list comment-tree builder

`_build_comment_tree(flat_comments, post_id)`
(stage2_crawl_posts_pullpush.py lines 587-635).  The input records are the
dictionaries produced by `_parse_pullpush_comment(..., include_ids=True)`.
The Python version builds `comment_dict` (a dict keyed by `comment_id`),
then mutates shared node objects to attach each node to its parent's
`replies` (or to the root list when the parent is the post or was
filtered out of the dict), then recomputes `reply_count` recursively from
the roots.  The functional rendering below computes the same forest: the
dict is an association list in insertion order, a root's subtree is
unfolded by following the child relation (`parent_id == "t1_" + id`), and
the fuel `dict.length + 1` covers every chain of distinct dict entries,
which is the only shape reachable from a root. -/

structure FlatComment where
  author : String
  text : String
  score : ℤ
  created_time : String
  comment_id : String
  parent_id : String
deriving DecidableEq, Repr

/-- Python dict assignment `d[k] = v`: replace in place or append. -/
def insertReplace (k : String) (v : FlatComment) :
    List (String × FlatComment) → List (String × FlatComment)
  | [] => [(k, v)]
  | (k2, v2) :: rest =>
      if k2 = k then (k, v) :: rest else (k2, v2) :: insertReplace k v rest

/-- First pass of `_build_comment_tree` (lines 592-608): index the flat
comments by `comment_id`, skipping records with a falsy id. -/
def buildDict (flat : List FlatComment) : List (String × FlatComment) :=
  flat.foldl
    (fun d c => if c.comment_id = "" then d else insertReplace c.comment_id c d)
    []

/-- Python `k in d` / `d[k]` on the comment dict. -/
def lookupDict : List (String × FlatComment) → String → Option FlatComment
  | [], _ => none
  | (k, v) :: rest, t => if k = t then some v else lookupDict rest t

/-- The subtree rooted at one dict entry, following the child relation of
the second pass (lines 610-624): the children of `cid` are the dict
entries, in dict order, whose `parent_id` is `"t1_" + cid`.  `reply_count`
is 0 as in the first pass; the third pass (`update_counts`) fills it in. -/
def buildNode (dict : List (String × FlatComment)) :
    Nat → String × FlatComment → CommentNode
  | 0, (_, c) => CommentNode.mk c.author c.text c.score c.created_time [] 0
  | fuel + 1, (cid, c) =>
      CommentNode.mk c.author c.text c.score c.created_time
        ((dict.filter (fun e =>
            strStartsWith e.2.parent_id "t1_" && strDrop e.2.parent_id 3 == cid)).map
          (buildNode dict fuel))
        0

mutual

/-- Third pass of `_build_comment_tree` (lines 626-633): recursively set
`reply_count = len(replies)`. -/
def update_counts : CommentNode → CommentNode
  | .mk a t s c rs _ =>
      let rs2 := update_counts_list rs
      CommentNode.mk a t s c rs2 rs2.length

def update_counts_list : List CommentNode → List CommentNode
  | [] => []
  | n :: rest => update_counts n :: update_counts_list rest

end

/-- `_build_comment_tree(flat_comments, post_id)`
(stage2_crawl_posts_pullpush.py lines 587-635).  The roots are, in dict
order, the entries replying to the post (`parent_id` starts with `t3_`)
and the entries whose comment parent was filtered out of the dict. -/
def build_comment_tree (flat : List FlatComment) : List CommentNode :=
  let dict := buildDict flat
  let roots := dict.filter (fun e =>
    strStartsWith e.2.parent_id "t3_" ||
      (strStartsWith e.2.parent_id "t1_" &&
        (lookupDict dict (strDrop e.2.parent_id 3)).isNone))
  update_counts_list (roots.map (buildNode dict (dict.length + 1)))

/-! ## stage1_collect_urls.py: PullPush frontier collection

`_process_api_response` (lines 192-227) and the page loop of
`collect_post_urls` (lines 249-349).  A raw API post record carries the
fields the collector reads; Python truthiness of the `id`/`permalink`/
`created_utc` guards and of `removed_by_category` is modelled explicitly.
The `post_id` field of a collected `UrlEntry` records the raw post's `id`
— the value added to the seen set when the entry was appended; the Python
dict stores only `url` (built as `"https://www.reddit.com" + permalink`)
and `created_utc`, and recovers the id from the url via
`_extract_post_id`. -/

structure RawPost where
  id : Option String
  permalink : Option String
  created_utc : Option ℤ
  author : String
  removed_by_category : Option String
  selftext : String
deriving DecidableEq, Repr

/-- Python `if removed_by:` — truthy when present and non-empty. -/
def truthyOptStr : Option String → Bool
  | none => false
  | some s => s != ""

/-- `_is_deleted_post(post)` (stage1_collect_urls.py lines 173-190). -/
def is_deleted_post (p : RawPost) : Bool :=
  if p.author = "[deleted]" ∨ p.author = "[removed]" then true
  else if truthyOptStr p.removed_by_category then true
  else if p.selftext = "[deleted]" ∨ p.selftext = "[removed]" then true
  else false

structure UrlEntry where
  url : String
  created_utc : ℤ
  post_id : String
deriving DecidableEq, Repr

structure CollectState where
  collected : List UrlEntry
  seen : List String
deriving DecidableEq, Repr

/-- `_process_api_response(new_posts, collected_urls, collected_post_ids,
max_posts)` (stage1_collect_urls.py lines 192-227): stop at `max_posts`,
skip records with falsy `id`/`permalink`/`created_utc`, count and skip
duplicates, mark-and-skip deleted posts, append the rest.  Returns the
updated state and `(new_count, duplicate_count, deleted_count)`. -/
def process_api_response (max_posts : Nat) :
    CollectState → List RawPost → CollectState × Nat × Nat × Nat
  | s, [] => (s, 0, 0, 0)
  | s, p :: ps =>
      if max_posts ≤ s.collected.length then (s, 0, 0, 0)
      else
        match p.id, p.permalink, p.created_utc with
        | some pid, some perm, some cutc =>
            if pid = "" ∨ perm = "" ∨ cutc = 0 then
              process_api_response max_posts s ps
            else if pid ∈ s.seen then
              let t := process_api_response max_posts s ps
              (t.1, t.2.1, t.2.2.1 + 1, t.2.2.2)
            else if is_deleted_post p then
              let t := process_api_response max_posts
                (CollectState.mk s.collected (s.seen ++ [pid])) ps
              (t.1, t.2.1, t.2.2.1, t.2.2.2 + 1)
            else
              let t := process_api_response max_posts
                (CollectState.mk
                  (s.collected ++
                    [UrlEntry.mk ("https://www.reddit.com" ++ perm) cutc pid])
                  (s.seen ++ [pid])) ps
              (t.1, t.2.1 + 1, t.2.2.1, t.2.2.2)
        | _, _, _ => process_api_response max_posts s ps

/-- The page loop of `collect_post_urls` (stage1_collect_urls.py lines
254-335), over the successive successful API payloads: stop when the
target is reached, when a page is empty (true exhaustion), or when three
consecutive pages yield zero new URLs.  Returns the final state and the
number of pages consumed. -/
def collect_loop (max_posts : Nat) :
    CollectState → Nat → List (List RawPost) → CollectState × Nat
  | s, _, [] => (s, 0)
  | s, zero_new, pg :: rest =>
      if max_posts ≤ s.collected.length then (s, 0)
      else if pg = [] then (s, 1)
      else
        let r := process_api_response max_posts s pg
        if r.2.1 = 0 then
          if 3 ≤ zero_new + 1 then (r.1, 1)
          else
            let t := collect_loop max_posts r.1 (zero_new + 1) rest
            (t.1, t.2 + 1)
        else
          let t := collect_loop max_posts r.1 0 rest
          (t.1, t.2 + 1)

/-- `collect_post_urls` for a fresh run (stage1_collect_urls.py line 349):
the collected list, truncated to `max_posts` on return. -/
def stage1_collect_post_urls (max_posts : Nat)
    (pages : List (List RawPost)) : List UrlEntry :=
  ((collect_loop max_posts (CollectState.mk [] []) 0 pages).1.collected).take
    max_posts

/-! ## crawler.py: browser-based multi-source frontier collection

`_collect_from_single_source` (lines 467-540) and the source loop of
`collect_post_urls` (lines 434-451).  The post-id extraction
(`extract_post_id`, a regular-expression match on the href) is kept
abstract as `extract : String → Option String`; a `None`/empty result is
skipped as in the Python truthiness test `if post_id and post_id not in
seen_post_ids`. -/

structure SourcedUrl where
  url : String
  source : String
deriving DecidableEq, Repr

structure BrowseState where
  collected : List SourcedUrl
  seen : List String
deriving DecidableEq, Repr

/-- The link loop of `_collect_from_single_source` (crawler.py lines
488-508): each link's href (possibly absent), the `/user/` filter, the
relative-to-absolute rewrite, dedup on the extracted post id, and the
break once `target` entries are collected.  Returns the state and
`new_found_count`. -/
def process_links (extract : String → Option String) (target : Nat)
    (source : String) : BrowseState → List (Option String) → BrowseState × Nat
  | s, [] => (s, 0)
  | s, href? :: rest =>
      match href? with
      | none => process_links extract target source s rest
      | some href =>
          if strContains href "/user/" then
            process_links extract target source s rest
          else
            let href2 := if strStartsWith href "/" then
              "https://www.reddit.com" ++ href else href
            match extract href2 with
            | none => process_links extract target source s rest
            | some pid =>
                if pid = "" then process_links extract target source s rest
                else if pid ∈ s.seen then
                  process_links extract target source s rest
                else
                  let s2 := BrowseState.mk
                    (s.collected ++ [SourcedUrl.mk href2 source])
                    (s.seen ++ [pid])
                  if target ≤ s2.collected.length then (s2, 1)
                  else
                    let t := process_links extract target source s2 rest
                    (t.1, t.2 + 1)

/-- The scroll loop of `_collect_from_single_source` (crawler.py lines
479-529): each round extracts the currently visible links; stop when the
per-source target is met or three consecutive rounds found nothing new. -/
def collect_rounds (extract : String → Option String) (target : Nat)
    (source : String) :
    BrowseState → Nat → List (List (Option String)) → BrowseState
  | s, _, [] => s
  | s, no_new, links :: rest =>
      if target ≤ s.collected.length ∨ 3 ≤ no_new then s
      else
        let t := process_links extract target source s links
        let no_new2 := if t.2 = 0 then no_new + 1 else 0
        if target ≤ t.1.collected.length then t.1
        else collect_rounds extract target source t.1 no_new2 rest

/-- `_collect_from_single_source` over one source: starts with an empty
per-source list and the shared seen set; returns the source's entries and
the updated seen set. -/
def collect_from_single_source (extract : String → Option String)
    (source : String) (target : Nat) (seen : List String)
    (rounds : List (List (Option String))) : List SourcedUrl × List String :=
  let s := collect_rounds extract target source (BrowseState.mk [] seen) 0 rounds
  (s.collected, s.seen)

/-- The source loop of `collect_post_urls` (crawler.py lines 434-451):
each source contributes its entries to the global list; the seen set is
shared across sources.  A source descriptor is
`(source_tag, target_count, rounds)`. -/
def collect_all_sources (extract : String → Option String) :
    List SourcedUrl → List String →
      List (String × Nat × List (List (Option String))) → List SourcedUrl
  | acc, _, [] => acc
  | acc, seen, (source, target, rounds) :: more =>
      if target = 0 then collect_all_sources extract acc seen more
      else
        let r := collect_from_single_source extract source target seen rounds
        collect_all_sources extract (acc ++ r.1) r.2 more

/-! ## stage2_crawl_posts_pullpush.py: resumable fetch loop

`load_crawl_progress` (lines 264-303) recomputes the pending index set
from the persistence sink, and `crawl_posts` (lines 665-742) runs the
fetch loop with batched persistence and the consecutive-failure circuit
breaker (threshold 5).  The sink is an upsert table; in the model it is
keyed by the frontier index recorded with each row (the progress query
reads the `index_in_list` column).  The external fetch
(`fetch_post_json`) is abstract: `fetch : Nat → Option α`, `none` being a
failed fetch. -/

structure CrawlState (α : Type) where
  db : List (Nat × α)
  buffer : List (Nat × α)
  consecutive_failures : Nat
  attempted : List Nat
deriving DecidableEq, Repr

/-- Upsert one row, keyed by index (`_save_to_sqlite` replaces on key
collision). -/
def upsertNat {α : Type} (k : Nat) (v : α) :
    List (Nat × α) → List (Nat × α)
  | [] => [(k, v)]
  | (k2, v2) :: rest =>
      if k2 = k then (k, v) :: rest else (k2, v2) :: upsertNat k v rest

/-- Flush a batch into the table. -/
def upsertAll {α : Type} (db : List (Nat × α)) (batch : List (Nat × α)) :
    List (Nat × α) :=
  batch.foldl (fun d kv => upsertNat kv.1 kv.2 d) db

/-- `save_data` (stage2_crawl_posts_pullpush.py lines 320-342): flush the
in-memory buffer to the table and clear it. -/
def save_data {α : Type} (s : CrawlState α) : CrawlState α :=
  CrawlState.mk (upsertAll s.db s.buffer) [] s.consecutive_failures s.attempted

/-- The fetch loop of `crawl_posts` (stage2_crawl_posts_pullpush.py lines
691-721): fetch each pending index in order; a success is buffered, resets
the failure counter, and every 10th buffered item triggers a flush; a
failure increments the counter and the loop stops as soon as it reaches 5. -/
def crawl_loop {α : Type} (fetch : Nat → Option α) :
    CrawlState α → List Nat → CrawlState α
  | s, [] => s
  | s, idx :: rest =>
      match fetch idx with
      | some d =>
          let s2 := CrawlState.mk s.db (s.buffer ++ [(idx, d)]) 0
            (s.attempted ++ [idx])
          let s3 := if s2.buffer.length % 10 = 0 then save_data s2 else s2
          crawl_loop fetch s3 rest
      | none =>
          let s2 := CrawlState.mk s.db s.buffer (s.consecutive_failures + 1)
            (s.attempted ++ [idx])
          if 5 ≤ s2.consecutive_failures then s2
          else crawl_loop fetch s2 rest

/-- The crawled-index query of `load_crawl_progress`
(stage2_crawl_posts_pullpush.py lines 237-262): the indices persisted in
the sink within `[start_index, end_index]`. -/
def crawled_indexes_from_db {α : Type} (db : List (Nat × α))
    (start_index end_index : Nat) : List Nat :=
  (db.map Prod.fst).filter (fun i => start_index ≤ i && i ≤ end_index)

/-- `load_crawl_progress` (lines 264-303): the pending set is the full
target range minus the indices already persisted, in ascending order. -/
def pending_indexes {α : Type} (db : List (Nat × α))
    (start_index end_index : Nat) : List Nat :=
  (List.range' start_index (end_index + 1 - start_index)).filter
    (fun i => ¬ i ∈ crawled_indexes_from_db db start_index end_index)

/-- `crawl_posts` (stage2_crawl_posts_pullpush.py lines 665-742): compute
the pending set from the sink; if it is empty return before fetching
anything, otherwise run the fetch loop and flush the final buffer
(the `finally` block's `save_data`). -/
def crawl_posts {α : Type} (fetch : Nat → Option α)
    (start_index end_index : Nat) (db : List (Nat × α)) : CrawlState α :=
  let pending := pending_indexes db start_index end_index
  if pending = [] then CrawlState.mk db [] 0 []
  else save_data (crawl_loop fetch (CrawlState.mk db [] 0 []) pending)

/-- Specification device for the dedup invariant: the collected entries
have pairwise-distinct derived post ids, every entry's derived id is
`some` and recorded in the seen set, no entry's id was in the baseline
seen set `seen0`, and the seen set only grows from `seen0`. -/
def SourceInv (extract : String → Option String) (seen0 : List String)
    (s : BrowseState) : Prop :=
  s.collected.Pairwise (fun a b => extract a.url ≠ extract b.url) ∧
  (∀ e ∈ s.collected, ∃ pid, extract e.url = some pid ∧
    pid ∈ s.seen ∧ pid ∉ seen0) ∧
  (∀ x ∈ seen0, x ∈ s.seen)

end RedditCrawler

namespace RedditCrawler

/-! # Theorems -/

theorem mem_flattenForest_cons (a x : CommentNode) (l : List CommentNode) :
    a ∈ flattenForest (x :: l) ↔ a ∈ flattenForest [x] ∨ a ∈ flattenForest l := by
  cases x with
  | mk au t s c rs rc =>
      simp [flattenForest, List.mem_append]
      tauto

theorem count_comments_eq_flatten (f : List CommentNode) :
    count_comments f = (flattenForest f).length := by
  induction f using count_comments.induct with
  | case1 => simp [count_comments, flattenForest]
  | case2 a t s c rs rc rest ih1 ih2 =>
      by_cases h : rs.isEmpty
      · have hrs : rs = [] := List.isEmpty_iff.mp h
        subst hrs
        simp [count_comments, flattenForest, ih2]
        omega
      · simp [count_comments, flattenForest, h, ih1, ih2]
        omega

theorem quotaGo_sum (max_posts : Nat) (ratios : List (String × ℚ)) :
    ∀ (ts : List String) (remaining : ℤ), ts ≠ [] →
      ((quotaGo max_posts ratios remaining ts).map Prod.snd).sum = remaining := by
  intro ts
  induction ts with
  | nil => intro remaining h; exact absurd rfl h
  | cons t rest ih =>
      intro remaining _
      cases rest with
      | nil => simp [quotaGo]
      | cons t2 rest2 =>
          have h2 : (t2 :: rest2) ≠ ([] : List String) := by simp
          simp only [quotaGo, List.map_cons, List.sum_cons, ih _ h2]
          ring

theorem length_insertSorted (x : String) (l : List String) :
    (insertSorted x l).length = l.length + 1 := by
  induction l with
  | nil => rfl
  | cons y ys ih =>
      by_cases h : strLt y x = true <;> simp [insertSorted, h, ih]

theorem length_sortKeys (l : List String) :
    (sortKeys l).length = l.length := by
  induction l with
  | nil => rfl
  | cons x xs ih => simp [sortKeys, List.foldr] at ih ⊢
                    rw [length_insertSorted, ih]

theorem length_validate_ratios (ratios : List (String × ℚ)) :
    (validate_ratios ratios).length = ratios.length := by
  simp only [validate_ratios]
  split <;> simp

theorem parse_comment_list_counts (conv : ℤ → String) (raws : List RawComment) :
    ∀ n ∈ flattenForest (parse_comment_list conv raws),
      n.reply_count = n.replies.length := by
  refine parse_comment_list.induct conv
    (fun r => ∀ m, parse_comment conv r = some m →
      ∀ n ∈ flattenForest [m], n.reply_count = n.replies.length)
    (fun rs => ∀ n ∈ flattenForest (parse_comment_list conv rs),
      n.reply_count = n.replies.length)
    ?_ ?_ ?_ ?_ ?_ ?_ raws
  · intro author body score cutc rawReplies m hm
    simp [parse_comment] at hm
  · intro kind author body score cutc rawReplies hk a b hf m hm
    simp [parse_comment, hk, hf] at hm
  · intro kind author body score cutc rawReplies hk a b hf ih m hm
    simp only [parse_comment, if_neg hk, if_neg hf] at hm
    rw [Option.some_inj] at hm
    subst hm
    intro n hn
    simp only [flattenForest, List.append_nil] at hn
    rcases List.mem_cons.mp hn with h | h
    · subst h
      simp [CommentNode.reply_count, CommentNode.replies]
    · exact ih n (by simpa [flattenForest] using h)
  · intro n hn
    simp [parse_comment_list, flattenForest] at hn
  · intro r rest n0 hsome ih1 ih2 n hn
    have hl : parse_comment_list conv (r :: rest) =
        n0 :: parse_comment_list conv rest := by
      simp [parse_comment_list, hsome]
    rw [hl, mem_flattenForest_cons] at hn
    rcases hn with h | h
    · exact ih1 n0 hsome n h
    · exact ih2 n h
  · intro r rest hnone ih1 ih2 n hn
    have hl : parse_comment_list conv (r :: rest) =
        parse_comment_list conv rest := by
      simp [parse_comment_list, hnone]
    rw [hl] at hn
    exact ih2 n hn

theorem update_counts_list_counts (f : List CommentNode) :
    ∀ n ∈ flattenForest (update_counts_list f),
      n.reply_count = n.replies.length := by
  refine update_counts_list.induct
    (fun c => ∀ n ∈ flattenForest [update_counts c],
      n.reply_count = n.replies.length)
    (fun l => ∀ n ∈ flattenForest (update_counts_list l),
      n.reply_count = n.replies.length)
    ?_ ?_ ?_ f
  · intro a t s c rs rc ih n hn
    simp only [update_counts, flattenForest, List.append_nil] at hn
    rcases List.mem_cons.mp hn with h | h
    · subst h
      simp [CommentNode.reply_count, CommentNode.replies]
    · exact ih n (by simpa [flattenForest] using h)
  · intro n hn
    simp [update_counts_list, flattenForest] at hn
  · intro x rest ih1 ih2 n hn
    rw [show update_counts_list (x :: rest) =
          update_counts x :: update_counts_list rest from rfl,
      mem_flattenForest_cons] at hn
    rcases hn with h | h
    · exact ih1 n h
    · exact ih2 n h

theorem lookupDict_some_mem (d : List (String × FlatComment)) (k : String)
    (v : FlatComment) (h : lookupDict d k = some v) : (k, v) ∈ d := by
  induction d with
  | nil => simp [lookupDict] at h
  | cons p rest ih =>
      cases p with
      | mk k2 v2 =>
          by_cases hk : k2 = k
          · subst hk
            simp [lookupDict] at h
            subst h
            exact List.mem_cons_self _ _
          · simp [lookupDict, hk] at h
            exact List.mem_cons_of_mem _ (ih h)

theorem update_counts_list_eq_map (l : List CommentNode) :
    update_counts_list l = l.map update_counts := by
  induction l with
  | nil => simp [update_counts_list]
  | cons x rest ih => simp [update_counts_list, ih]

/-- C5: a kept comment B whose `parent_id` points (via `t1_`) at a comment
that was filtered out of the comment dict is promoted to the root list of
`_build_comment_tree`'s result, keeping its own subtree. -/
theorem filtered_parent_promotion (flat : List FlatComment) (bid : String)
    (b : FlatComment)
    (hmem : lookupDict (buildDict flat) bid = some b)
    (hpar : strStartsWith b.parent_id "t1_" = true)
    (hdangling : lookupDict (buildDict flat) (strDrop b.parent_id 3) = none) :
    update_counts
        (buildNode (buildDict flat) ((buildDict flat).length + 1) (bid, b)) ∈
      build_comment_tree flat := by
  have hdictmem : (bid, b) ∈ buildDict flat := lookupDict_some_mem _ _ _ hmem
  have hroot : (bid, b) ∈ (buildDict flat).filter (fun e =>
      strStartsWith e.2.parent_id "t3_" ||
        (strStartsWith e.2.parent_id "t1_" &&
          (lookupDict (buildDict flat) (strDrop e.2.parent_id 3)).isNone)) := by
    rw [List.mem_filter]
    refine ⟨hdictmem, ?_⟩
    simp [hpar, hdangling]
  have hb : buildNode (buildDict flat) ((buildDict flat).length + 1) (bid, b) ∈
      ((buildDict flat).filter (fun e =>
        strStartsWith e.2.parent_id "t3_" ||
          (strStartsWith e.2.parent_id "t1_" &&
            (lookupDict (buildDict flat) (strDrop e.2.parent_id 3)).isNone))).map
        (buildNode (buildDict flat) ((buildDict flat).length + 1)) :=
    List.mem_map_of_mem _ hroot
  simp only [build_comment_tree, update_counts_list_eq_map]
  exact List.mem_map_of_mem update_counts hb

/-- Witness for `filtered_parent_promotion`: comment `b1` replies to the
absent (filtered) comment `a1` and is promoted to the root list with its
child `c1` intact. -/
theorem filtered_parent_promotion_witness :
    lookupDict
        (buildDict [FlatComment.mk "userB" "reply to removed" 5 "t0" "b1" "t1_a1",
          FlatComment.mk "userC" "reply to B" 3 "t0" "c1" "t1_b1"]) "b1" =
      some (FlatComment.mk "userB" "reply to removed" 5 "t0" "b1" "t1_a1") ∧
    strStartsWith
        (FlatComment.mk "userB" "reply to removed" 5 "t0" "b1" "t1_a1").parent_id
        "t1_" = true ∧
    lookupDict
        (buildDict [FlatComment.mk "userB" "reply to removed" 5 "t0" "b1" "t1_a1",
          FlatComment.mk "userC" "reply to B" 3 "t0" "c1" "t1_b1"])
        (strDrop
          (FlatComment.mk "userB" "reply to removed" 5 "t0" "b1" "t1_a1").parent_id
          3) = none ∧
    update_counts
        (buildNode
          (buildDict [FlatComment.mk "userB" "reply to removed" 5 "t0" "b1" "t1_a1",
            FlatComment.mk "userC" "reply to B" 3 "t0" "c1" "t1_b1"])
          ((buildDict [FlatComment.mk "userB" "reply to removed" 5 "t0" "b1" "t1_a1",
            FlatComment.mk "userC" "reply to B" 3 "t0" "c1" "t1_b1"]).length + 1)
          ("b1", FlatComment.mk "userB" "reply to removed" 5 "t0" "b1" "t1_a1")) ∈
      build_comment_tree
        [FlatComment.mk "userB" "reply to removed" 5 "t0" "b1" "t1_a1",
          FlatComment.mk "userC" "reply to B" 3 "t0" "c1" "t1_b1"] := by
  have h1 :
      lookupDict
        (buildDict [FlatComment.mk "userB" "reply to removed" 5 "t0" "b1" "t1_a1",
          FlatComment.mk "userC" "reply to B" 3 "t0" "c1" "t1_b1"]) "b1" =
      some (FlatComment.mk "userB" "reply to removed" 5 "t0" "b1" "t1_a1") := by
    decide
  have h2 :
      strStartsWith
        (FlatComment.mk "userB" "reply to removed" 5 "t0" "b1" "t1_a1").parent_id
        "t1_" = true := by
    decide
  have h3 :
      lookupDict
        (buildDict [FlatComment.mk "userB" "reply to removed" 5 "t0" "b1" "t1_a1",
          FlatComment.mk "userC" "reply to B" 3 "t0" "c1" "t1_b1"])
        (strDrop
          (FlatComment.mk "userB" "reply to removed" 5 "t0" "b1" "t1_a1").parent_id
          3) = none := by
    decide
  exact ⟨h1, h2, h3, filtered_parent_promotion _ "b1" _ h1 h2 h3⟩

theorem mem_flattenForest_map {α : Type} (f : α → CommentNode) (l : List α)
    (n : CommentNode) (h : n ∈ flattenForest (l.map f)) :
    ∃ x ∈ l, n ∈ flattenForest [f x] := by
  induction l with
  | nil => simp [flattenForest] at h
  | cons x rest ih =>
      rw [List.map_cons, mem_flattenForest_cons] at h
      rcases h with h | h
      · exact ⟨x, List.mem_cons_self _ _, h⟩
      · obtain ⟨y, hy, hn⟩ := ih h
        exact ⟨y, List.mem_cons_of_mem _ hy, hn⟩

theorem buildNode_author_provenance (dict : List (String × FlatComment)) :
    ∀ (fuel : Nat) (kc : String × FlatComment) (n : CommentNode),
      n ∈ flattenForest [buildNode dict fuel kc] →
        n.author = kc.2.author ∨
          ∃ p ∈ dict, strStartsWith p.2.parent_id "t1_" = true ∧
            n.author = p.2.author := by
  intro fuel
  induction fuel with
  | zero =>
      intro kc n hn
      obtain ⟨k, c⟩ := kc
      simp [buildNode, flattenForest] at hn
      subst hn
      left
      rfl
  | succ fuel ih =>
      intro kc n hn
      obtain ⟨k, c⟩ := kc
      simp only [buildNode, flattenForest, List.append_nil] at hn
      rcases List.mem_cons.mp hn with h | h
      · subst h
        left
        rfl
      · obtain ⟨x, hx, hnx⟩ := mem_flattenForest_map _ _ _ h
        have hxd := (List.mem_filter.mp hx).1
        have hpred := (List.mem_filter.mp hx).2
        have hpre : strStartsWith x.2.parent_id "t1_" = true := by
          revert hpred
          cases strStartsWith x.2.parent_id "t1_" <;> simp
        rcases ih x n hnx with h1 | ⟨p, hp, hp2, hp3⟩
        · exact Or.inr ⟨x, hxd, hpre, h1⟩
        · exact Or.inr ⟨p, hp, hp2, hp3⟩

theorem update_counts_author (m : CommentNode) :
    (update_counts m).author = m.author := by
  cases m with
  | mk a t s c rs rc => simp [update_counts, CommentNode.author]

theorem flattenForest_update_counts (l : List CommentNode) :
    flattenForest (update_counts_list l) =
      (flattenForest l).map update_counts := by
  refine update_counts_list.induct
    (fun c => flattenForest [update_counts c] =
      (flattenForest [c]).map update_counts)
    (fun l => flattenForest (update_counts_list l) =
      (flattenForest l).map update_counts)
    ?_ ?_ ?_ l
  · intro a t s c rs rc ih
    simp [update_counts, flattenForest, ih]
  · simp [update_counts_list, flattenForest]
  · intro x rest ih1 ih2
    cases x with
    | mk a t s c rs rc =>
        simp [update_counts, flattenForest] at ih1
        simp [update_counts_list, update_counts, flattenForest, ih1, ih2]

/-- C10: a comment surviving filtering whose `parent_id` starts with
neither `t3_` nor `t1_` is dropped from the output of
`_build_comment_tree` entirely: no node of the returned forest — root or
nested — carries it.  Nodes carry no ids, so the comment is identified by
its author, assumed unique among the dict entries. -/
theorem malformed_parent_dropped (flat : List FlatComment) (cid : String)
    (c : FlatComment)
    (hmem : (cid, c) ∈ buildDict flat)
    (h3 : strStartsWith c.parent_id "t3_" = false)
    (h1 : strStartsWith c.parent_id "t1_" = false)
    (huniq : ∀ p ∈ buildDict flat, p.2.author = c.author → p.2 = c) :
    ∀ n ∈ flattenForest (build_comment_tree flat), n.author ≠ c.author := by
  intro n hn heq
  simp only [build_comment_tree, flattenForest_update_counts] at hn
  obtain ⟨m, hm, hnm⟩ := List.mem_map.mp hn
  obtain ⟨x, hx, hmx⟩ := mem_flattenForest_map _ _ _ hm
  have hxd := (List.mem_filter.mp hx).1
  have hxpred := (List.mem_filter.mp hx).2
  have hma : m.author = c.author := by
    rw [← hnm, update_counts_author] at heq
    exact heq
  have hgood : ∃ p ∈ buildDict flat,
      (strStartsWith p.2.parent_id "t3_" = true ∨
        strStartsWith p.2.parent_id "t1_" = true) ∧
      m.author = p.2.author := by
    rcases buildNode_author_provenance (buildDict flat) _ x m hmx with h | ⟨p, hp, hp2, hp3⟩
    · refine ⟨x, hxd, ?_, h⟩
      revert hxpred
      cases e3 : strStartsWith x.2.parent_id "t3_" <;>
        cases e1 : strStartsWith x.2.parent_id "t1_" <;> simp
    · exact ⟨p, hp, Or.inr hp2, hp3⟩
  obtain ⟨p, hp, hpre, hpa⟩ := hgood
  have hpc : p.2 = c := huniq p hp (by rw [← hpa, ← hma])
  rcases hpre with hpre | hpre
  · rw [hpc] at hpre
    rw [h3] at hpre
    exact Bool.false_ne_true hpre
  · rw [hpc] at hpre
    rw [h1] at hpre
    exact Bool.false_ne_true hpre

/-- Witness for `malformed_parent_dropped`: comment `x1` has an empty
parent pointer and appears nowhere in the built forest. -/
theorem malformed_parent_dropped_witness :
    ("x1", FlatComment.mk "userX" "orphan" 1 "t0" "x1" "") ∈
        buildDict [FlatComment.mk "userX" "orphan" 1 "t0" "x1" "",
          FlatComment.mk "userY" "hello" 2 "t0" "y1" "t3_p"] ∧
    strStartsWith (FlatComment.mk "userX" "orphan" 1 "t0" "x1" "").parent_id
        "t3_" = false ∧
    strStartsWith (FlatComment.mk "userX" "orphan" 1 "t0" "x1" "").parent_id
        "t1_" = false ∧
    (∀ p ∈ buildDict [FlatComment.mk "userX" "orphan" 1 "t0" "x1" "",
        FlatComment.mk "userY" "hello" 2 "t0" "y1" "t3_p"],
      p.2.author = (FlatComment.mk "userX" "orphan" 1 "t0" "x1" "").author →
        p.2 = FlatComment.mk "userX" "orphan" 1 "t0" "x1" "") ∧
    (∀ n ∈ flattenForest (build_comment_tree
        [FlatComment.mk "userX" "orphan" 1 "t0" "x1" "",
          FlatComment.mk "userY" "hello" 2 "t0" "y1" "t3_p"]),
      n.author ≠ (FlatComment.mk "userX" "orphan" 1 "t0" "x1" "").author) := by
  have h1 : ("x1", FlatComment.mk "userX" "orphan" 1 "t0" "x1" "") ∈
      buildDict [FlatComment.mk "userX" "orphan" 1 "t0" "x1" "",
        FlatComment.mk "userY" "hello" 2 "t0" "y1" "t3_p"] := by
    decide
  have h2 : strStartsWith
      (FlatComment.mk "userX" "orphan" 1 "t0" "x1" "").parent_id "t3_" = false := by
    decide
  have h3 : strStartsWith
      (FlatComment.mk "userX" "orphan" 1 "t0" "x1" "").parent_id "t1_" = false := by
    decide
  have h4 : ∀ p ∈ buildDict [FlatComment.mk "userX" "orphan" 1 "t0" "x1" "",
      FlatComment.mk "userY" "hello" 2 "t0" "y1" "t3_p"],
      p.2.author = (FlatComment.mk "userX" "orphan" 1 "t0" "x1" "").author →
        p.2 = FlatComment.mk "userX" "orphan" 1 "t0" "x1" "" := by
    decide
  exact ⟨h1, h2, h3, h4, malformed_parent_dropped _ "x1" _ h1 h2 h3 h4⟩

theorem proc_stops_when_full (max_posts : Nat) (s : CollectState)
    (ps : List RawPost) (h : max_posts ≤ s.collected.length) :
    (process_api_response max_posts s ps).1 = s := by
  cases ps <;> simp [process_api_response, h]

theorem proc_length_le (max_posts : Nat) (ps : List RawPost) :
    ∀ s : CollectState, s.collected.length ≤ max_posts →
      (process_api_response max_posts s ps).1.collected.length ≤ max_posts := by
  induction ps with
  | nil => intro s h; simpa [process_api_response] using h
  | cons p rest ih =>
      intro s h
      by_cases hfull : max_posts ≤ s.collected.length
      · simpa [process_api_response, hfull] using h
      · simp only [process_api_response, if_neg hfull]
        split
        · split
          · exact ih s h
          · split
            · exact ih s h
            · split
              · exact ih _ (by simpa using h)
              · refine ih _ ?_
                simp only [List.length_append, List.length_cons, List.length_nil]
                omega
        · exact ih s h

theorem proc_seen_subset (max_posts : Nat) (ps : List RawPost) :
    ∀ (s : CollectState) (x : String), x ∈ s.seen →
      x ∈ (process_api_response max_posts s ps).1.seen := by
  induction ps with
  | nil => intro s x h; simpa [process_api_response] using h
  | cons p rest ih =>
      intro s x h
      by_cases hfull : max_posts ≤ s.collected.length
      · simpa [process_api_response, hfull] using h
      · simp only [process_api_response, if_neg hfull]
        split
        · split
          · exact ih s x h
          · split
            · exact ih s x h
            · split
              · exact ih _ x (by simp only [CollectState.mk.injEq,
                  List.mem_append]; exact Or.inl h)
              · exact ih _ x (by simp only [CollectState.mk.injEq,
                  List.mem_append]; exact Or.inl h)
        · exact ih s x h

theorem proc_ids_in_seen (max_posts : Nat) (ps : List RawPost) :
    ∀ s : CollectState, (∀ e ∈ s.collected, e.post_id ∈ s.seen) →
      ∀ e ∈ (process_api_response max_posts s ps).1.collected,
        e.post_id ∈ (process_api_response max_posts s ps).1.seen := by
  induction ps with
  | nil => intro s h; simpa [process_api_response] using h
  | cons p rest ih =>
      intro s h
      by_cases hfull : max_posts ≤ s.collected.length
      · simpa [process_api_response, hfull] using h
      · simp only [process_api_response, if_neg hfull]
        split
        · split
          · exact ih s h
          · split
            · exact ih s h
            · split
              · refine ih _ ?_
                intro e he
                simp only [List.mem_append]
                exact Or.inl (h e he)
              · refine ih _ ?_
                intro e he
                rcases List.mem_append.mp he with he | he
                · simp only [List.mem_append]
                  exact Or.inl (h e he)
                · simp only [List.mem_singleton] at he
                  subst he
                  simp [UrlEntry.post_id, List.mem_append]
        · exact ih s h

theorem collect_loop_length_le (max_posts : Nat) (pages : List (List RawPost)) :
    ∀ (s : CollectState) (z : Nat), s.collected.length ≤ max_posts →
      (collect_loop max_posts s z pages).1.collected.length ≤ max_posts := by
  induction pages with
  | nil => intro s z h; simpa [collect_loop] using h
  | cons pg rest ih =>
      intro s z h
      by_cases hfull : max_posts ≤ s.collected.length
      · simpa [collect_loop, hfull] using h
      · by_cases hpg : pg = []
        · simpa [collect_loop, hfull, hpg] using h
        · simp only [collect_loop, if_neg hfull, if_neg hpg]
          split
          · split
            · exact proc_length_le max_posts pg s h
            · exact ih _ _ (proc_length_le max_posts pg s h)
          · exact ih _ _ (proc_length_le max_posts pg s h)

theorem collect_loop_ids_in_seen (max_posts : Nat)
    (pages : List (List RawPost)) :
    ∀ (s : CollectState) (z : Nat),
      (∀ e ∈ s.collected, e.post_id ∈ s.seen) →
      ∀ e ∈ (collect_loop max_posts s z pages).1.collected,
        e.post_id ∈ (collect_loop max_posts s z pages).1.seen := by
  induction pages with
  | nil => intro s z h; simpa [collect_loop] using h
  | cons pg rest ih =>
      intro s z h
      by_cases hfull : max_posts ≤ s.collected.length
      · simpa [collect_loop, hfull] using h
      · by_cases hpg : pg = []
        · simpa [collect_loop, hfull, hpg] using h
        · simp only [collect_loop, if_neg hfull, if_neg hpg]
          split
          · split
            · exact proc_ids_in_seen max_posts pg s h
            · exact ih _ _ (proc_ids_in_seen max_posts pg s h)
          · exact ih _ _ (proc_ids_in_seen max_posts pg s h)

/-- C3: during stage-1 frontier collection the collected list never grows
past `max_posts`: a page processed when the list is already full changes
nothing, the length stays at most `max_posts` through the whole page loop,
the list returned by `collect_post_urls` has at most `max_posts` entries,
and the seen-id set always contains the id of every collected entry (it
may also hold ids of posts skipped as deleted). -/
theorem frontier_bound_and_seen_cover :
    (∀ (max_posts : Nat) (s : CollectState) (ps : List RawPost),
      max_posts ≤ s.collected.length →
        (process_api_response max_posts s ps).1 = s) ∧
    (∀ (max_posts : Nat) (pages : List (List RawPost)) (s : CollectState)
        (z : Nat), s.collected.length ≤ max_posts →
      (collect_loop max_posts s z pages).1.collected.length ≤ max_posts) ∧
    (∀ (max_posts : Nat) (pages : List (List RawPost)),
      (stage1_collect_post_urls max_posts pages).length ≤ max_posts) ∧
    (∀ (max_posts : Nat) (pages : List (List RawPost)) (s : CollectState)
        (z : Nat), (∀ e ∈ s.collected, e.post_id ∈ s.seen) →
      ∀ e ∈ (collect_loop max_posts s z pages).1.collected,
        e.post_id ∈ (collect_loop max_posts s z pages).1.seen) := by
  refine ⟨proc_stops_when_full, ?_, ?_, ?_⟩
  · intro max_posts pages s z h
    exact collect_loop_length_le max_posts pages s z h
  · intro max_posts pages
    simpa [stage1_collect_post_urls] using
      List.length_take_le max_posts
        (collect_loop max_posts (CollectState.mk [] []) 0 pages).1.collected
  · intro max_posts pages s z h
    exact collect_loop_ids_in_seen max_posts pages s z h

/-- Witness for `frontier_bound_and_seen_cover` at a concrete page. -/
theorem frontier_bound_and_seen_cover_witness :
    (5 ≤ (CollectState.mk
        [UrlEntry.mk "https://www.reddit.com/p/" 3 "a",
          UrlEntry.mk "https://www.reddit.com/q/" 4 "b",
          UrlEntry.mk "https://www.reddit.com/r/" 5 "c",
          UrlEntry.mk "https://www.reddit.com/s/" 6 "d",
          UrlEntry.mk "https://www.reddit.com/t/" 7 "e"]
        ["a", "b", "c", "d", "e"]).collected.length ∧
      (process_api_response 5
        (CollectState.mk
          [UrlEntry.mk "https://www.reddit.com/p/" 3 "a",
            UrlEntry.mk "https://www.reddit.com/q/" 4 "b",
            UrlEntry.mk "https://www.reddit.com/r/" 5 "c",
            UrlEntry.mk "https://www.reddit.com/s/" 6 "d",
            UrlEntry.mk "https://www.reddit.com/t/" 7 "e"]
          ["a", "b", "c", "d", "e"])
        [RawPost.mk (some "f") (some "/u/") (some 8) "u" none ""]).1 =
      CollectState.mk
        [UrlEntry.mk "https://www.reddit.com/p/" 3 "a",
          UrlEntry.mk "https://www.reddit.com/q/" 4 "b",
          UrlEntry.mk "https://www.reddit.com/r/" 5 "c",
          UrlEntry.mk "https://www.reddit.com/s/" 6 "d",
          UrlEntry.mk "https://www.reddit.com/t/" 7 "e"]
        ["a", "b", "c", "d", "e"]) ∧
    ((CollectState.mk [] []).collected.length ≤ 1 ∧
      (collect_loop 1 (CollectState.mk [] []) 0
        [[RawPost.mk (some "a") (some "/p/") (some 3) "u" none "",
          RawPost.mk (some "b") (some "/q/") (some 4) "u" none ""]]).1.collected.length
        ≤ 1) ∧
    (stage1_collect_post_urls 1
        [[RawPost.mk (some "a") (some "/p/") (some 3) "u" none "",
          RawPost.mk (some "b") (some "/q/") (some 4) "u" none ""]]).length ≤ 1 ∧
    ((∀ e ∈ (CollectState.mk [] []).collected,
        e.post_id ∈ (CollectState.mk [] []).seen) ∧
      ∀ e ∈ (collect_loop 1 (CollectState.mk [] []) 0
          [[RawPost.mk (some "a") (some "/p/") (some 3) "u" none "",
            RawPost.mk (some "b") (some "/q/") (some 4) "u" none ""]]).1.collected,
        e.post_id ∈ (collect_loop 1 (CollectState.mk [] []) 0
          [[RawPost.mk (some "a") (some "/p/") (some 3) "u" none "",
            RawPost.mk (some "b") (some "/q/") (some 4) "u" none ""]]).1.seen) := by
  refine ⟨⟨by decide, ?_⟩, ⟨by decide, ?_⟩, ?_, ⟨by decide, ?_⟩⟩
  · exact frontier_bound_and_seen_cover.1 5 _ _ (by decide)
  · exact frontier_bound_and_seen_cover.2.1 1 _ _ 0 (by decide)
  · exact frontier_bound_and_seen_cover.2.2.1 1 _
  · exact frontier_bound_and_seen_cover.2.2.2 1 _ _ 0 (by decide)

theorem proc_zero_new_collected (max_posts : Nat) (ps : List RawPost) :
    ∀ s : CollectState, (process_api_response max_posts s ps).2.1 = 0 →
      (process_api_response max_posts s ps).1.collected = s.collected := by
  induction ps with
  | nil => intro s _; simp [process_api_response]
  | cons p rest ih =>
      intro s hz
      by_cases hfull : max_posts ≤ s.collected.length
      · simp [process_api_response, hfull]
      · simp only [process_api_response, if_neg hfull] at hz ⊢
        revert hz
        split
        · split
          · exact fun hz => ih s hz
          · split
            · exact fun hz => ih s hz
            · split
              · exact fun hz => ih _ hz
              · intro hz
                simp at hz
        · exact fun hz => ih s hz

theorem collect_loop_zero_new_step (max_posts : Nat) (s : CollectState)
    (z : Nat) (pg : List RawPost) (rest : List (List RawPost))
    (hlen : s.collected.length < max_posts) (hpg : pg ≠ [])
    (hz : (process_api_response max_posts s pg).2.1 = 0) (hzlt : z + 1 < 3) :
    collect_loop max_posts s z (pg :: rest) =
      ((collect_loop max_posts (process_api_response max_posts s pg).1
          (z + 1) rest).1,
        (collect_loop max_posts (process_api_response max_posts s pg).1
          (z + 1) rest).2 + 1) := by
  simp only [collect_loop, if_neg (not_le.mpr hlen), if_neg hpg, hz,
    if_pos rfl, if_neg (by omega : ¬ 3 ≤ z + 1)]
  simp

theorem collect_loop_zero_new_stop (max_posts : Nat) (s : CollectState)
    (z : Nat) (pg : List RawPost) (rest : List (List RawPost))
    (hlen : s.collected.length < max_posts) (hpg : pg ≠ [])
    (hz : (process_api_response max_posts s pg).2.1 = 0) (hzge : 3 ≤ z + 1) :
    collect_loop max_posts s z (pg :: rest) =
      ((process_api_response max_posts s pg).1, 1) := by
  simp only [collect_loop, if_neg (not_le.mpr hlen), if_neg hpg, hz,
    if_pos rfl, if_pos hzge]
  simp

theorem collect_loop_reset_step (max_posts : Nat) (s : CollectState)
    (z : Nat) (pg : List RawPost) (rest : List (List RawPost))
    (hlen : s.collected.length < max_posts) (hpg : pg ≠ [])
    (hnew : (process_api_response max_posts s pg).2.1 ≠ 0) :
    collect_loop max_posts s z (pg :: rest) =
      ((collect_loop max_posts (process_api_response max_posts s pg).1
          0 rest).1,
        (collect_loop max_posts (process_api_response max_posts s pg).1
          0 rest).2 + 1) := by
  simp only [collect_loop, if_neg (not_le.mpr hlen), if_neg hpg,
    if_neg hnew]

/-- C7: with the target not yet reached, three consecutive non-empty pages
each yielding zero new items stop stage-1 collection right after the third
such page — exactly 3 further pages are consumed no matter what the
upstream would return next — while a page yielding at least one new item
always resets the zero-new counter to 0. -/
theorem stalled_pagination_stops :
    (∀ (max_posts : Nat) (s : CollectState) (p1 p2 p3 : List RawPost)
        (rest : List (List RawPost)),
      s.collected.length < max_posts →
      p1 ≠ [] → p2 ≠ [] → p3 ≠ [] →
      (process_api_response max_posts s p1).2.1 = 0 →
      (process_api_response max_posts
          (process_api_response max_posts s p1).1 p2).2.1 = 0 →
      (process_api_response max_posts
          (process_api_response max_posts
            (process_api_response max_posts s p1).1 p2).1 p3).2.1 = 0 →
      collect_loop max_posts s 0 (p1 :: p2 :: p3 :: rest) =
        ((process_api_response max_posts
            (process_api_response max_posts
              (process_api_response max_posts s p1).1 p2).1 p3).1, 3)) ∧
    (∀ (max_posts : Nat) (s : CollectState) (z : Nat) (pg : List RawPost)
        (rest : List (List RawPost)),
      s.collected.length < max_posts → pg ≠ [] →
      1 ≤ (process_api_response max_posts s pg).2.1 →
      collect_loop max_posts s z (pg :: rest) =
        ((collect_loop max_posts (process_api_response max_posts s pg).1
            0 rest).1,
          (collect_loop max_posts (process_api_response max_posts s pg).1
            0 rest).2 + 1)) := by
  constructor
  · intro max_posts s p1 p2 p3 rest hlen h1 h2 h3 hz1 hz2 hz3
    have hl1 : (process_api_response max_posts s p1).1.collected.length <
        max_posts := by
      rw [proc_zero_new_collected max_posts p1 s hz1]
      exact hlen
    have hl2 : (process_api_response max_posts
        (process_api_response max_posts s p1).1 p2).1.collected.length <
        max_posts := by
      rw [proc_zero_new_collected max_posts p2 _ hz2]
      exact hl1
    rw [collect_loop_zero_new_step max_posts s 0 p1 _ hlen h1 hz1
        (by omega),
      collect_loop_zero_new_step max_posts _ 1 p2 _ hl1 h2 hz2 (by omega),
      collect_loop_zero_new_stop max_posts _ 2 p3 _ hl2 h3 hz3 (by omega)]
  · intro max_posts s z pg rest hlen hpg hnew
    exact collect_loop_reset_step max_posts s z pg rest hlen hpg
      (by omega)

/-- Witness for `stalled_pagination_stops`: pages consisting only of an
already-seen post yield zero new items and stop collection after three of
them, even with more pages available; a page with a fresh post resets the
counter. -/
theorem stalled_pagination_stops_witness :
    ((CollectState.mk [] ["a"]).collected.length < 5 ∧
      [RawPost.mk (some "a") (some "/p/") (some 3) "u" none ""] ≠ [] ∧
      (process_api_response 5 (CollectState.mk [] ["a"])
        [RawPost.mk (some "a") (some "/p/") (some 3) "u" none ""]).2.1 = 0 ∧
      collect_loop 5 (CollectState.mk [] ["a"])
          0 [[RawPost.mk (some "a") (some "/p/") (some 3) "u" none ""],
            [RawPost.mk (some "a") (some "/p/") (some 3) "u" none ""],
            [RawPost.mk (some "a") (some "/p/") (some 3) "u" none ""],
            [RawPost.mk (some "a") (some "/p/") (some 3) "u" none ""]] =
        ((process_api_response 5
            (process_api_response 5
              (process_api_response 5 (CollectState.mk [] ["a"])
                [RawPost.mk (some "a") (some "/p/") (some 3) "u" none ""]).1
              [RawPost.mk (some "a") (some "/p/") (some 3) "u" none ""]).1
            [RawPost.mk (some "a") (some "/p/") (some 3) "u" none ""]).1,
          3)) ∧
    (1 ≤ (process_api_response 5 (CollectState.mk [] ["a"])
        [RawPost.mk (some "b") (some "/q/") (some 4) "u" none ""]).2.1 ∧
      collect_loop 5 (CollectState.mk [] ["a"]) 2
          [[RawPost.mk (some "b") (some "/q/") (some 4) "u" none ""]] =
        ((collect_loop 5
            (process_api_response 5 (CollectState.mk [] ["a"])
              [RawPost.mk (some "b") (some "/q/") (some 4) "u" none ""]).1
            0 []).1,
          (collect_loop 5
            (process_api_response 5 (CollectState.mk [] ["a"])
              [RawPost.mk (some "b") (some "/q/") (some 4) "u" none ""]).1
            0 []).2 + 1)) := by
  refine ⟨⟨by decide, by decide, by decide, ?_⟩, ⟨by decide, ?_⟩⟩
  · exact stalled_pagination_stops.1 5 (CollectState.mk [] ["a"]) _ _ _ _
      (by decide) (by decide) (by decide) (by decide) (by decide) (by decide)
      (by decide)
  · exact stalled_pagination_stops.2 5 (CollectState.mk [] ["a"]) 2 _ _
      (by decide) (by decide) (by decide)

/-- C8: in the fetch loop with failure threshold 5, five consecutive
failed fetches from a clean counter stop the loop right after the fifth
failure: exactly those five indices are attempted, the indices after them
are not touched, and the sink and buffer are left unchanged (so the
untouched indices stay pending for the next run); a successful fetch
always hands the continuation a state whose failure counter is 0. -/
theorem circuit_breaker_stops_after_fifth_failure :
    (∀ (α : Type) (fetch : Nat → Option α) (i1 i2 i3 i4 i5 : Nat)
        (rest : List Nat) (db buf : List (Nat × α)) (att : List Nat),
      fetch i1 = none → fetch i2 = none → fetch i3 = none →
      fetch i4 = none → fetch i5 = none →
      crawl_loop fetch (CrawlState.mk db buf 0 att)
          (i1 :: i2 :: i3 :: i4 :: i5 :: rest) =
        CrawlState.mk db buf 5 (att ++ [i1, i2, i3, i4, i5])) ∧
    (∀ (α : Type) (fetch : Nat → Option α) (idx : Nat) (d : α)
        (rest : List Nat) (db buf : List (Nat × α)) (cf : Nat)
        (att : List Nat),
      fetch idx = some d →
      ∃ s2 : CrawlState α,
        crawl_loop fetch (CrawlState.mk db buf cf att) (idx :: rest) =
          crawl_loop fetch s2 rest ∧
        s2.consecutive_failures = 0 ∧ s2.attempted = att ++ [idx]) := by
  constructor
  · intro α fetch i1 i2 i3 i4 i5 rest db buf att h1 h2 h3 h4 h5
    simp [crawl_loop, h1, h2, h3, h4, h5]
  · intro α fetch idx d rest db buf cf att hsome
    by_cases hflush : (buf ++ [(idx, d)]).length % 10 = 0
    · refine ⟨save_data (CrawlState.mk db (buf ++ [(idx, d)]) 0
        (att ++ [idx])), ?_, rfl, rfl⟩
      simp only [List.length_append, List.length_singleton] at hflush
      simp [crawl_loop, hsome, hflush]
    · refine ⟨CrawlState.mk db (buf ++ [(idx, d)]) 0 (att ++ [idx]),
        ?_, rfl, rfl⟩
      simp only [List.length_append, List.length_singleton] at hflush
      simp [crawl_loop, hsome, hflush]

/-- Witness for `circuit_breaker_stops_after_fifth_failure`: five failures
at indices 0-4 leave indices 5 and 6 unattempted; a success at index 0
resets the counter from 3 to 0. -/
theorem circuit_breaker_stops_after_fifth_failure_witness :
    ((fun _ : Nat => (none : Option Nat)) 0 = none ∧
      crawl_loop (fun _ : Nat => (none : Option Nat))
          (CrawlState.mk [] [] 0 []) [0, 1, 2, 3, 4, 5, 6] =
        CrawlState.mk [] [] 5 ([] ++ [0, 1, 2, 3, 4])) ∧
    ((fun i : Nat => (some i : Option Nat)) 0 = some 0 ∧
      ∃ s2 : CrawlState Nat,
        crawl_loop (fun i : Nat => (some i : Option Nat))
            (CrawlState.mk [] [] 3 []) [0] =
          crawl_loop (fun i : Nat => (some i : Option Nat)) s2 [] ∧
        s2.consecutive_failures = 0 ∧ s2.attempted = [] ++ [0]) := by
  refine ⟨⟨rfl, ?_⟩, ⟨rfl, ?_⟩⟩
  · exact circuit_breaker_stops_after_fifth_failure.1 Nat _ 0 1 2 3 4
      [5, 6] [] [] [] rfl rfl rfl rfl rfl
  · exact circuit_breaker_stops_after_fifth_failure.2 Nat _ 0 0 [] [] [] 3
      [] rfl

theorem mem_map_fst_upsertNat {α : Type} (k : Nat) (v : α)
    (db : List (Nat × α)) (x : Nat) :
    x ∈ (upsertNat k v db).map Prod.fst ↔
      x ∈ db.map Prod.fst ∨ x = k := by
  induction db with
  | nil => simp [upsertNat]
  | cons kv rest ih =>
      obtain ⟨k2, v2⟩ := kv
      by_cases hk : k2 = k
      · subst hk
        simp [upsertNat]
        tauto
      · simp [upsertNat, hk, ih]
        tauto

theorem mem_map_fst_upsertAll {α : Type} (batch : List (Nat × α)) :
    ∀ (db : List (Nat × α)) (x : Nat),
      (x ∈ (upsertAll db batch).map Prod.fst ↔
        x ∈ db.map Prod.fst ∨ x ∈ batch.map Prod.fst) := by
  induction batch with
  | nil => intro db x; simp [upsertAll]
  | cons kv rest ih =>
      intro db x
      have hstep : upsertAll db (kv :: rest) =
          upsertAll (upsertNat kv.1 kv.2 db) rest := by
        simp [upsertAll]
      rw [hstep, ih, mem_map_fst_upsertNat]
      simp
      tauto

theorem crawl_loop_success_keys {α : Type} (fetch : Nat → Option α)
    (pend : List Nat) :
    (∀ i ∈ pend, (fetch i).isSome) → ∀ (s : CrawlState α) (x : Nat),
      (x ∈ ((save_data (crawl_loop fetch s pend)).db.map Prod.fst) ↔
        x ∈ s.db.map Prod.fst ∨ x ∈ s.buffer.map Prod.fst ∨ x ∈ pend) := by
  induction pend with
  | nil =>
      intro _ s x
      simp only [crawl_loop, save_data]
      rw [mem_map_fst_upsertAll]
      simp
  | cons i rest ih =>
      intro hall s x
      obtain ⟨d, hd⟩ := Option.isSome_iff_exists.mp
        (hall i (List.mem_cons_self _ _))
      have hrest : ∀ j ∈ rest, (fetch j).isSome :=
        fun j hj => hall j (List.mem_cons_of_mem _ hj)
      simp only [crawl_loop, hd]
      split
      · rw [ih hrest]
        simp only [save_data, mem_map_fst_upsertAll, List.map_append,
          List.mem_append, List.map_cons, List.map_nil, List.mem_singleton,
          List.mem_cons, List.not_mem_nil, false_or, or_false]
        tauto
      · rw [ih hrest]
        simp only [List.map_append, List.mem_append, List.map_cons,
          List.map_nil, List.mem_singleton, List.mem_cons,
          List.not_mem_nil, false_or, or_false]
        tauto

theorem mem_crawled_indexes {α : Type} (db : List (Nat × α))
    (s e i : Nat) :
    i ∈ crawled_indexes_from_db db s e ↔
      i ∈ db.map Prod.fst ∧ (s ≤ i ∧ i ≤ e) := by
  simp [crawled_indexes_from_db, List.mem_filter]

theorem mem_pending_indexes {α : Type} (db : List (Nat × α)) (s e i : Nat) :
    i ∈ pending_indexes db s e ↔
      (s ≤ i ∧ i < s + (e + 1 - s)) ∧
        ¬ i ∈ crawled_indexes_from_db db s e := by
  simp [pending_indexes, List.mem_filter, List.mem_range'_1]

theorem crawl_posts_of_no_pending {α : Type} (f : Nat → Option α)
    (s e : Nat) (db : List (Nat × α))
    (h : pending_indexes db s e = []) :
    crawl_posts f s e db = CrawlState.mk db [] 0 [] := by
  simp [crawl_posts, h]

/-- C9: if the fetch loop runs to completion (every pending index fetches
successfully), then on a re-invocation against the same range and sink the
pending set — recomputed as the target range minus the indices already
persisted — is empty, so the loop returns before fetching anything and
leaves the store unchanged. -/
theorem resumption_idempotence (α : Type) (fetch : Nat → Option α)
    (start_index end_index : Nat) (db : List (Nat × α))
    (hall : ∀ i ∈ pending_indexes db start_index end_index,
      (fetch i).isSome) :
    pending_indexes (crawl_posts fetch start_index end_index db).db
        start_index end_index = [] ∧
    (∀ fetch2 : Nat → Option α,
      crawl_posts fetch2 start_index end_index
          (crawl_posts fetch start_index end_index db).db =
        CrawlState.mk (crawl_posts fetch start_index end_index db).db
          [] 0 []) := by
  by_cases hp : pending_indexes db start_index end_index = []
  · constructor
    · simp [crawl_posts, hp]
    · intro fetch2
      simp [crawl_posts, hp]
  · have hdb1 : ∀ x : Nat,
        x ∈ (crawl_posts fetch start_index end_index db).db.map Prod.fst ↔
          x ∈ db.map Prod.fst ∨
            x ∈ pending_indexes db start_index end_index := by
      intro x
      simp only [crawl_posts, if_neg hp]
      rw [crawl_loop_success_keys fetch _ hall (CrawlState.mk db [] 0 []) x]
      simp
    have hpend1 : pending_indexes
        (crawl_posts fetch start_index end_index db).db
        start_index end_index = [] := by
      simp only [pending_indexes]
      rw [List.filter_eq_nil_iff]
      intro i hi
      have hib := List.mem_range'_1.mp hi
      simp only [decide_not, Bool.not_eq_true', decide_eq_false_iff_not,
        Decidable.not_not]
      rw [mem_crawled_indexes]
      refine ⟨?_, hib.1, by omega⟩
      rw [hdb1]
      by_cases hpi : i ∈ pending_indexes db start_index end_index
      · exact Or.inr hpi
      · rw [mem_pending_indexes] at hpi
        push_neg at hpi
        have hcr := hpi ⟨hib.1, hib.2⟩
        rw [mem_crawled_indexes] at hcr
        exact Or.inl hcr.1
    refine ⟨hpend1, ?_⟩
    intro fetch2
    exact crawl_posts_of_no_pending fetch2 _ _ _ hpend1

/-- Witness for `resumption_idempotence`: a complete run over the range
`[0, 1]` against an empty sink, then a re-run against the filled sink. -/
theorem resumption_idempotence_witness :
    (∀ i ∈ pending_indexes ([] : List (Nat × Nat)) 0 1,
      ((fun i : Nat => (some i : Option Nat)) i).isSome) ∧
    pending_indexes
        (crawl_posts (fun i : Nat => (some i : Option Nat)) 0 1
          ([] : List (Nat × Nat))).db 0 1 = [] ∧
    (∀ fetch2 : Nat → Option Nat,
      crawl_posts fetch2 0 1
          (crawl_posts (fun i : Nat => (some i : Option Nat)) 0 1
            ([] : List (Nat × Nat))).db =
        CrawlState.mk
          (crawl_posts (fun i : Nat => (some i : Option Nat)) 0 1
            ([] : List (Nat × Nat))).db [] 0 []) := by
  have h : ∀ i ∈ pending_indexes ([] : List (Nat × Nat)) 0 1,
      ((fun i : Nat => (some i : Option Nat)) i).isSome := by
    decide
  exact ⟨h, resumption_idempotence Nat _ 0 1 [] h⟩

theorem sourceInv_append (extract : String → Option String)
    (seen0 : List String) (s : BrowseState) (href2 source : String)
    (pid : String) (h : SourceInv extract seen0 s)
    (hex : extract href2 = some pid) (hnew : pid ∉ s.seen) :
    SourceInv extract seen0
      (BrowseState.mk (s.collected ++ [SourcedUrl.mk href2 source])
        (s.seen ++ [pid])) := by
  obtain ⟨hpw, hids, hsub⟩ := h
  refine ⟨?_, ?_, ?_⟩
  · rw [List.pairwise_append]
    refine ⟨hpw, List.pairwise_singleton _ _, ?_⟩
    intro a ha b hb
    simp only [List.mem_singleton] at hb
    subst hb
    obtain ⟨pa, hpa, hpaseen, _⟩ := hids a ha
    show extract a.url ≠ extract (SourcedUrl.mk href2 source).url
    rw [hpa, hex]
    intro hcontra
    rw [Option.some_inj] at hcontra
    subst hcontra
    exact hnew hpaseen
  · intro e he
    rcases List.mem_append.mp he with he | he
    · obtain ⟨pa, hpa, hpaseen, hpa0⟩ := hids e he
      exact ⟨pa, hpa, List.mem_append.mpr (Or.inl hpaseen), hpa0⟩
    · simp only [List.mem_singleton] at he
      subst he
      exact ⟨pid, hex,
        List.mem_append.mpr (Or.inr (List.mem_singleton.mpr rfl)),
        fun h0 => hnew (hsub _ h0)⟩
  · intro x hx
    exact List.mem_append.mpr (Or.inl (hsub x hx))

theorem process_links_inv (extract : String → Option String) (target : Nat)
    (source : String) (links : List (Option String)) :
    ∀ (s : BrowseState) (seen0 : List String), SourceInv extract seen0 s →
      SourceInv extract seen0
        (process_links extract target source s links).1 := by
  induction links with
  | nil => intro s seen0 h; simpa [process_links] using h
  | cons href? rest ih =>
      intro s seen0 h
      cases href? with
      | none => simpa [process_links] using ih s seen0 h
      | some href =>
          cases hco : strContains href "/user/" with
          | true => simpa [process_links, hco] using ih s seen0 h
          | false =>
              simp only [process_links, hco, Bool.false_eq_true, if_false]
              generalize (if strStartsWith href "/" = true then
                "https://www.reddit.com" ++ href else href) = href2
              cases hex : extract href2 with
              | none => exact ih s seen0 h
              | some pid =>
                  by_cases hpid : pid = ""
                  · simp only [hpid, if_pos rfl]
                    exact ih s seen0 h
                  · simp only [if_neg hpid]
                    by_cases hmem : pid ∈ s.seen
                    · simp only [if_pos hmem]
                      exact ih s seen0 h
                    · simp only [if_neg hmem]
                      have hs2 := sourceInv_append extract seen0 s _ source
                        pid h hex hmem
                      split
                      · exact hs2
                      · exact ih _ seen0 hs2

theorem collect_rounds_inv (extract : String → Option String) (target : Nat)
    (source : String) (rounds : List (List (Option String))) :
    ∀ (s : BrowseState) (z : Nat) (seen0 : List String),
      SourceInv extract seen0 s →
      SourceInv extract seen0
        (collect_rounds extract target source s z rounds) := by
  induction rounds with
  | nil => intro s z seen0 h; simpa [collect_rounds] using h
  | cons links rest ih =>
      intro s z seen0 h
      by_cases hstop : target ≤ s.collected.length ∨ 3 ≤ z
      · simpa [collect_rounds, hstop] using h
      · simp only [collect_rounds, if_neg hstop]
        have hs1 := process_links_inv extract target source links s seen0 h
        split
        · exact hs1
        · exact ih _ _ seen0 hs1

theorem collect_from_single_source_inv (extract : String → Option String)
    (source : String) (target : Nat) (seen : List String)
    (rounds : List (List (Option String))) :
    (collect_from_single_source extract source target seen rounds).1.Pairwise
        (fun a b => extract a.url ≠ extract b.url) ∧
    (∀ e ∈ (collect_from_single_source extract source target seen rounds).1,
      ∃ pid, extract e.url = some pid ∧
        pid ∈ (collect_from_single_source extract source target seen rounds).2 ∧
        pid ∉ seen) ∧
    (∀ x ∈ seen,
      x ∈ (collect_from_single_source extract source target seen rounds).2) := by
  have h0 : SourceInv extract seen (BrowseState.mk [] seen) :=
    ⟨List.Pairwise.nil, by simp, fun x hx => hx⟩
  exact collect_rounds_inv extract target source rounds
    (BrowseState.mk [] seen) 0 seen h0

theorem collect_all_sources_pairwise (extract : String → Option String)
    (sources : List (String × Nat × List (List (Option String)))) :
    ∀ (acc : List SourcedUrl) (seen : List String),
      acc.Pairwise (fun a b => extract a.url ≠ extract b.url) →
      (∀ e ∈ acc, ∃ pid, extract e.url = some pid ∧ pid ∈ seen) →
      (collect_all_sources extract acc seen sources).Pairwise
        (fun a b => extract a.url ≠ extract b.url) := by
  induction sources with
  | nil => intro acc seen hpw _; simpa [collect_all_sources] using hpw
  | cons src more ih =>
      intro acc seen hpw hids
      obtain ⟨source, target, rounds⟩ := src
      by_cases ht : target = 0
      · simpa [collect_all_sources, ht] using ih acc seen hpw hids
      · simp only [collect_all_sources, if_neg ht]
        obtain ⟨rpw, rids, rsub⟩ :=
          collect_from_single_source_inv extract source target seen rounds
        refine ih _ _ ?_ ?_
        · rw [List.pairwise_append]
          refine ⟨hpw, rpw, ?_⟩
          intro a ha b hb
          obtain ⟨pa, hpa, hpaseen⟩ := hids a ha
          obtain ⟨pb, hpb, _, hpb0⟩ := rids b hb
          rw [hpa, hpb]
          intro hcontra
          rw [Option.some_inj] at hcontra
          subst hcontra
          exact hpb0 hpaseen
        · intro e he
          rcases List.mem_append.mp he with he | he
          · obtain ⟨pa, hpa, hpaseen⟩ := hids e he
            exact ⟨pa, hpa, rsub pa hpaseen⟩
          · obtain ⟨pb, hpb, hpbseen, _⟩ := rids e he
            exact ⟨pb, hpb, hpbseen⟩

/-- C2: for every sequence of discovered references fed into the frontier
collector — any extraction function, any set of sources, any pages of
links within each source, any number of duplicates across them — the
resulting frontier contains no two entries whose references derive the
same post id. -/
theorem frontier_dedup (extract : String → Option String)
    (sources : List (String × Nat × List (List (Option String)))) :
    (collect_all_sources extract [] [] sources).Pairwise
      (fun a b => extract a.url ≠ extract b.url) :=
  collect_all_sources_pairwise extract sources [] []
    List.Pairwise.nil (by simp)

/-- C1: for every `sampling_ratios` whose weights (after the
validation/renormalization step of `RedditCrawler.__init__`) sum to 1.0
within tolerance 0.01 and every `target_count` (`max_posts`), the quota
partition computed by `collect_post_urls` sums to exactly `target_count`:
non-last sources (in sorted key order) get `int(target * ratio)` and the
last source gets the remainder; in particular `target_count = 100` with
ratios new 0.65, top 0.25, best 0.10 yields quotas best 10, new 65,
top 25. -/
theorem quota_partition_sums_to_target (max_posts : Nat)
    (ratios : List (String × ℚ))
    (h : |((validate_ratios ratios).map Prod.snd).sum - 1| ≤ 1 / 100) :
    ((sampling_counts max_posts (validate_ratios ratios)).map Prod.snd).sum
        = max_posts ∧
    sampling_counts 100
        [("new", 65 / 100), ("top", 25 / 100), ("best", 10 / 100)] =
      [("best", 10), ("new", 65), ("top", 25)] := by
  constructor
  · have hne : ratios ≠ [] := by
      intro hr
      rw [hr] at h
      have hv : validate_ratios ([] : List (String × ℚ)) = [] := by
        norm_num [validate_ratios]
      rw [hv] at h
      norm_num at h
    have hlen : (validate_ratios ratios).length ≠ 0 := by
      rw [length_validate_ratios]
      exact fun hz => hne (List.length_eq_zero.mp hz)
    have hkeys : sortKeys ((validate_ratios ratios).map Prod.fst) ≠ [] := by
      intro hnil
      have hl := length_sortKeys ((validate_ratios ratios).map Prod.fst)
      rw [hnil] at hl
      simp at hl
      exact hlen (by simp [hl])
    exact quotaGo_sum max_posts (validate_ratios ratios) _ _ hkeys
  · norm_num +decide [sampling_counts, sortKeys, insertSorted, quotaGo,
      ratioFor, pythonInt, List.foldr]

/-- Witness for `quota_partition_sums_to_target` at the spec's concrete
scenario. -/
theorem quota_partition_sums_to_target_witness :
    (|((validate_ratios
          [("new", 65 / 100), ("top", 25 / 100), ("best", 10 / 100)]).map
            Prod.snd).sum - 1| ≤ 1 / 100) ∧
    (((sampling_counts 100
          (validate_ratios
            [("new", 65 / 100), ("top", 25 / 100), ("best", 10 / 100)])).map
            Prod.snd).sum = 100 ∧
      sampling_counts 100
          [("new", 65 / 100), ("top", 25 / 100), ("best", 10 / 100)] =
        [("best", 10), ("new", 65), ("top", 25)]) :=
  ⟨by norm_num [validate_ratios],
   quota_partition_sums_to_target 100
     [("new", 65 / 100), ("top", 25 / 100), ("best", 10 / 100)]
     (by norm_num [validate_ratios])⟩

/-- C6: `should_filter(author, body)` returns true exactly when the author
is the automated-moderation identity `AutoModerator`, or the deleted
sentinel `[deleted]`, or the body contains (case-insensitively, as a
substring) `i am a bot`, `moderator`, or `[deleted]`; on every other pair
it returns false. -/
theorem should_filter_characterization (author body : String) :
    is_bot_or_mod_comment_or_deleted author body = true ↔
      should_filter_spec author body := by
  unfold is_bot_or_mod_comment_or_deleted should_filter_spec
  by_cases h1 : author = "AutoModerator"
  · simp [h1]
  by_cases h2 : author = "[deleted]"
  · simp [h1, h2]
  by_cases hb : body = ""
  · subst hb
    simp [h1, h2, show toLowerStr "" = "" by decide]
    tauto
  · simp [h1, h2, hb, Bool.or_eq_true]
    tauto

/-- C4: for every comment forest, `_count_comments` returns exactly the
total number of nodes of the forest (each node once, at every depth), and
every node of a forest produced by either comment-tree builder
(`_parse_comment` on nested payloads, or `_build_comment_tree`'s
`update_counts` pass on flat payloads) satisfies
`reply_count == len(replies)`. -/
theorem comment_count_consistency :
    (∀ f : List CommentNode, count_comments f = (flattenForest f).length) ∧
    (∀ (conv : ℤ → String) (raws : List RawComment),
      ∀ n ∈ flattenForest (parse_comment_list conv raws),
        n.reply_count = n.replies.length) ∧
    (∀ flat : List FlatComment,
      ∀ n ∈ flattenForest (build_comment_tree flat),
        n.reply_count = n.replies.length) :=
  ⟨count_comments_eq_flatten, parse_comment_list_counts,
   fun _ => update_counts_list_counts _⟩

/-- Witness for `comment_count_consistency`: a one-comment nested payload
parses to a one-node forest whose node satisfies the count invariant. -/
theorem comment_count_consistency_witness :
    CommentNode.mk "[Deleted]" "[无文本]" 0 "ts" [] 0 ∈
        flattenForest (parse_comment_list (fun _ => "ts")
          [RawComment.mk "t1" none none 0 0 []]) ∧
    (CommentNode.mk "[Deleted]" "[无文本]" 0 "ts" [] 0).reply_count =
      (CommentNode.mk "[Deleted]" "[无文本]" 0 "ts" [] 0).replies.length := by
  have hmem : CommentNode.mk "[Deleted]" "[无文本]" 0 "ts" [] 0 ∈
      flattenForest (parse_comment_list (fun _ => "ts")
        [RawComment.mk "t1" none none 0 0 []]) := by
    have hl : flattenForest (parse_comment_list (fun _ => "ts")
        [RawComment.mk "t1" none none 0 0 []]) =
        [CommentNode.mk "[Deleted]" "[无文本]" 0 "ts" [] 0] := by
      simp +decide [parse_comment_list, parse_comment, flattenForest]
    rw [hl]
    exact List.mem_singleton.mpr rfl
  exact ⟨hmem,
    comment_count_consistency.2.1 (fun _ => "ts")
      [RawComment.mk "t1" none none 0 0 []] _ hmem⟩

end RedditCrawler
